import Mathlib

/-!
Shallow embedding of the browser order-cache client
(source: src/static/js/app_fresh.js, class OrderProcessingApp).

The JavaScript state is modelled as follows:
- the Map this.orders is a list of Order records in Map insertion order
  (Map.set on an existing key keeps the entry position and replaces the value,
  Map.set on a fresh key appends);
- this.ordersArray is a list recomputed by the stable sort on descending
  timestamp; JavaScript Array.prototype.sort is stable, and the comparator
  (a, b) => new Date(b.timestamp) - new Date(a.timestamp) places a before b
  exactly when b.timestamp <= a.timestamp, so it is modelled by the stable
  insertion sort on that relation;
- the Set this.selectedOrders is a list of identifiers in insertion order;
- timestamps are milliseconds since epoch (naturals);
- this.maxOrders is an integer: parseInt can produce negative values.
-/

namespace OrderApp

/-- Order record shape, from the wire protocol and its uses in app_fresh.js. -/
structure Order where
  order_id : String
  customer_name : String
  status : String
  priority : String
  details : String
  timestamp : Nat
  processed_at : Option Nat
deriving DecidableEq, Repr

/-- Lookup in the orders Map: Map.get by key. -/
def mapGet (m : List Order) (oid : String) : Option Order :=
  m.find? (fun e => e.order_id == oid)

/-- Map.set: replace the value in place when the key exists, else append. -/
def mapSet (m : List Order) (o : Order) : List Order :=
  if m.any (fun e => e.order_id == o.order_id) then
    m.map (fun e => if e.order_id == o.order_id then o else e)
  else m ++ [o]

/-- Map.delete by key. -/
def mapDelete (m : List Order) (oid : String) : List Order :=
  m.filter (fun e => e.order_id != oid)

/-- Set.delete on the selection set. -/
def setDelete (sel : List String) (oid : String) : List String :=
  sel.filter (fun x => x != oid)

/-- Key set of the orders Map, in insertion order. -/
def keys (m : List Order) : List String :=
  m.map (fun e => e.order_id)

/-- Comparator relation of the sort in addOrderToTable and friends:
a sorts no later than b when b.timestamp <= a.timestamp (newest first). -/
def tsDescLe (a b : Order) : Prop := b.timestamp ≤ a.timestamp

instance : DecidableRel tsDescLe :=
  fun a b => inferInstanceAs (Decidable (b.timestamp ≤ a.timestamp))

instance : IsTotal Order tsDescLe :=
  ⟨fun a b => Nat.le_total b.timestamp a.timestamp⟩

instance : IsTrans Order tsDescLe :=
  ⟨fun _ _ _ h1 h2 => Nat.le_trans h2 h1⟩

/-- The stable descending-timestamp sort used to recompute ordersArray. -/
def sortOrders (m : List Order) : List Order :=
  m.insertionSort tsDescLe

/-- The mutable client state of the OrderProcessingApp instance. -/
structure AppState where
  orders : List Order
  ordersArray : List Order
  selectedOrders : List String
  isConnected : Bool
  currentPage : Nat
  pageSize : Nat
  maxOrders : Int
deriving DecidableEq, Repr

/-- Constructor defaults of OrderProcessingApp. -/
def initState : AppState :=
  { orders := [], ordersArray := [], selectedOrders := [], isConnected := false,
    currentPage := 1, pageSize := 25, maxOrders := 500 }

/-- enforceMaxOrdersLimit: when ordersArray.length exceeds maxOrders, remove
the slice of the ordersToRemove last entries of the sorted array (the oldest
ones) from the Map and from the selection set, then recompute ordersArray.
Array.prototype.slice with a negative argument -k starts at max(length - k, 0),
which truncated Nat subtraction reproduces. -/
def enforceMaxOrdersLimit (s : AppState) : AppState :=
  if s.maxOrders < (s.ordersArray.length : Int) then
    let ordersToRemove : Nat := ((s.ordersArray.length : Int) - s.maxOrders).toNat
    let oldestOrders : List Order := s.ordersArray.drop (s.ordersArray.length - ordersToRemove)
    let newOrders := oldestOrders.foldl (fun m o => mapDelete m o.order_id) s.orders
    let newSelected := oldestOrders.foldl (fun t o => setDelete t o.order_id) s.selectedOrders
    { s with orders := newOrders,
             selectedOrders := newSelected,
             ordersArray := sortOrders newOrders }
  else s

/-- addOrderToTable: insert-or-replace by order_id, re-sort, enforce capacity. -/
def addOrderToTable (s : AppState) (o : Order) : AppState :=
  let newOrders := mapSet s.orders o
  enforceMaxOrdersLimit { s with orders := newOrders, ordersArray := sortOrders newOrders }

/-- updateOrderInTable: identical body to addOrderToTable in the source. -/
def updateOrderInTable (s : AppState) (o : Order) : AppState :=
  let newOrders := mapSet s.orders o
  enforceMaxOrdersLimit { s with orders := newOrders, ordersArray := sortOrders newOrders }

/-- Decoded inbound frames, from handleMessage's switch. -/
inductive Message where
  | orderItem (o : Order)
  | statusMsg (text : String)
  | errorMsg (text : String)
  | orderUpdated (o : Order)
  | unknown (msgType : String)
deriving DecidableEq, Repr

/-- handleMessage: dispatch of one inbound frame. status and error frames only
display text; unknown kinds are logged and ignored. -/
def handleMessage (s : AppState) (m : Message) : AppState :=
  match m with
  | Message.orderItem o => addOrderToTable s o
  | Message.statusMsg _ => s
  | Message.errorMsg _ => s
  | Message.orderUpdated o => updateOrderInTable s o
  | Message.unknown _ => s

/-- getTotalPages: Math.ceil(ordersArray.length / pageSize), as ceiling
division on naturals (the source always uses a positive page size). -/
def getTotalPages (s : AppState) : Nat :=
  (s.ordersArray.length + s.pageSize - 1) / s.pageSize

/-- goToPage: reject out-of-range requests, otherwise set the page. -/
def goToPage (s : AppState) (page : Nat) : AppState :=
  if page < 1 ∨ getTotalPages s < page then s
  else { s with currentPage := page }

/-- The slice of page p shown by renderCurrentPage:
ordersArray.slice((p - 1) * pageSize, p * pageSize). -/
def pageItems (s : AppState) (p : Nat) : List Order :=
  (s.ordersArray.drop ((p - 1) * s.pageSize)).take s.pageSize

/-- ordersToShow of renderCurrentPage: the slice of the current page. -/
def ordersToShow (s : AppState) : List Order :=
  pageItems s s.currentPage

/-- The pageSize select change listener: set the size and reset to page 1. -/
def setPageSize (s : AppState) (n : Nat) : AppState :=
  { s with pageSize := n, currentPage := 1 }

/-- Result of parseInt(maxOrdersInput.value) || 500: a NaN parse (modelled as
none) and a parse to 0 are falsy and default to 500; every other integer,
negative ones included, is kept. -/
def parsedCapacity (v : Option Int) : Int :=
  match v with
  | none => 500
  | some k => if k = 0 then 500 else k

/-- updateMaxOrdersLimit: store the parsed capacity and immediately re-run
eviction. The current page is not re-clamped. -/
def updateMaxOrdersLimit (s : AppState) (v : Option Int) : AppState :=
  enforceMaxOrdersLimit { s with maxOrders := parsedCapacity v }

/-- toggleOrderSelection: membership flip on the selection set. -/
def toggleOrderSelection (s : AppState) (oid : String) : AppState :=
  if s.selectedOrders.contains oid then
    { s with selectedOrders := setDelete s.selectedOrders oid }
  else
    { s with selectedOrders := s.selectedOrders ++ [oid] }

/-- deselectAllOrders: clear the selection set. -/
def deselectAllOrders (s : AppState) : AppState :=
  { s with selectedOrders := [] }

/-- Outbound commands, from the encode sites in app_fresh.js. -/
inductive Command where
  | startStream (frequency : Int) (maxOrdersArg : Int)
  | stopStream
  | generateBatch (count : Int)
  | processOrderCmd (order_id : String)
  | closeOrderCmd (order_id : String)
deriving DecidableEq, Repr

/-- One showStatus call: displayed text and its kind tag. -/
structure StatusLine where
  text : String
  kind : String
deriving DecidableEq, Repr

/-- Observable output of a command handler: sent commands and status lines. -/
abbrev Emit := List Command × List StatusLine

/-- processOrder: sends process_order whenever connected, with no check of the
order status or of its presence in the cache. -/
def processOrder (s : AppState) (oid : String) : Emit :=
  if s.isConnected = false then ([], [⟨"Not connected to server", "error"⟩])
  else ([Command.processOrderCmd oid], [])

/-- performCloseOrder: the actual close_order send. -/
def performCloseOrder (s : AppState) (oid : String) : Emit :=
  if s.isConnected = false then ([], [⟨"Not connected to server", "error"⟩])
  else ([Command.closeOrderCmd oid], [⟨"Closing order " ++ oid, "success"⟩])

/-- closeOrder: requires connection, presence in the cache and status
Processing, then asks for confirmation (the confirmed flag models the modal
outcome) before performCloseOrder. -/
def closeOrder (s : AppState) (oid : String) (confirmed : Bool) : Emit :=
  if s.isConnected = false then ([], [⟨"Not connected to server", "error"⟩])
  else
    match mapGet s.orders oid with
    | none => ([], [⟨"Order not found", "error"⟩])
    | some o =>
      if o.status ≠ "Processing" then ([], [⟨"Only processing orders can be closed", "error"⟩])
      else if confirmed then performCloseOrder s oid
      else ([], [])

/-- processSelectedOrders: forEach over the selection set calling processOrder
on every member, with no status filter. -/
def processSelectedOrders (s : AppState) : Emit :=
  if s.isConnected = false then ([], [⟨"Not connected to server", "error"⟩])
  else if s.selectedOrders.length = 0 then ([], [⟨"No orders selected", "error"⟩])
  else
    let per := s.selectedOrders.map (fun oid => processOrder s oid)
    (per.flatMap Prod.fst,
     per.flatMap Prod.snd ++ [⟨"Processing selected orders", "success"⟩])

/-- The filter in closeSelectedOrders: selected identifiers whose order is in
the cache with status Processing, in selection insertion order. -/
def selectedProcessingOrders (s : AppState) : List String :=
  s.selectedOrders.filter (fun oid =>
    match mapGet s.orders oid with
    | some o => o.status == "Processing"
    | none => false)

/-- performCloseSelectedOrders: performCloseOrder on each filtered member. -/
def performCloseSelectedOrders (s : AppState) (sel : List String) : Emit :=
  let per := sel.map (fun oid => performCloseOrder s oid)
  (per.flatMap Prod.fst,
   per.flatMap Prod.snd ++ [⟨"Closing processing orders", "success"⟩])

/-- closeSelectedOrders: connection and non-empty checks, filter to Processing
members, then confirmation before performCloseSelectedOrders. -/
def closeSelectedOrders (s : AppState) (confirmed : Bool) : Emit :=
  if s.isConnected = false then ([], [⟨"Not connected to server", "error"⟩])
  else if s.selectedOrders.length = 0 then ([], [⟨"No orders selected", "error"⟩])
  else
    let sel := selectedProcessingOrders s
    if sel.length = 0 then ([], [⟨"No processing orders selected to close", "error"⟩])
    else if confirmed then performCloseSelectedOrders s sel
    else ([], [])

/-- One operator or transport step at the core boundary. -/
inductive Op where
  | inbound (m : Message)
  | toggle (oid : String)
  | deselectAll
  | setCapacity (v : Option Int)
  | page (p : Nat)
  | choosePageSize (n : Nat)
deriving DecidableEq, Repr

/-- Apply one step to the client state. -/
def applyOp (s : AppState) : Op → AppState
  | Op.inbound m => handleMessage s m
  | Op.toggle oid => toggleOrderSelection s oid
  | Op.deselectAll => deselectAllOrders s
  | Op.setCapacity v => updateMaxOrdersLimit s v
  | Op.page p => goToPage s p
  | Op.choosePageSize n => setPageSize s n

/-- Connection-manager state: the isConnected flag, the displayed status text,
the fire instants of scheduled 3000ms reconnect callbacks, and a count of
connectWebSocket invocations (reconnection attempts). -/
structure ConnState where
  isConnected : Bool
  statusText : String
  pendingReconnects : List Nat
  connectCalls : Nat
deriving DecidableEq, Repr

/-- ws.onopen: mark connected and display Connected. -/
def wsOnOpen (c : ConnState) : ConnState :=
  { c with isConnected := true, statusText := "Connected" }

/-- ws.onclose at instant now: mark disconnected, display Disconnected, and
schedule one reconnect callback 3000ms later (setTimeout). -/
def wsOnClose (c : ConnState) (now : Nat) : ConnState :=
  { c with isConnected := false, statusText := "Disconnected",
           pendingReconnects := c.pendingReconnects ++ [now + 3000] }

/-- ws.onerror: display Error only; the connected flag is untouched and no
reconnect is scheduled. -/
def wsOnError (c : ConnState) : ConnState :=
  { c with statusText := "Error" }

/-- A scheduled reconnect callback firing at instant t: it is consumed, and
calls connectWebSocket exactly when the flag shows not connected. -/
def fireReconnectTimer (c : ConnState) (t : Nat) : ConnState :=
  if c.pendingReconnects.contains t then
    let c2 := { c with pendingReconnects := c.pendingReconnects.erase t }
    if c2.isConnected then c2 else { c2 with connectCalls := c2.connectCalls + 1 }
  else c

/-- Well-formedness tying the derived array to the Map: ordersArray is the
sorted view of the Map values and Map keys are distinct. -/
def WF (s : AppState) : Prop :=
  s.ordersArray = sortOrders s.orders ∧ (keys s.orders).Nodup

/-- The Selection Set subset invariant from the spec. -/
def SelInv (s : AppState) : Prop :=
  ∀ oid ∈ s.selectedOrders, oid ∈ keys s.orders

/-- The page-clamping invariant from the spec. -/
def PageInv (s : AppState) : Prop :=
  1 ≤ s.currentPage ∧ s.currentPage ≤ max 1 (getTotalPages s)

/-- Sample order used in concrete scenarios. -/
def mkOrder (oid : String) (ts : Nat) (st : String) : Order :=
  { order_id := oid, customer_name := "customer", status := st, priority := "High",
    details := "details", timestamp := ts, processed_at := none }

/-- Orders A, B, C at strictly increasing timestamps 1 < 2 < 3. -/
def ordA1 : Order := mkOrder "A" 1 "Pending"

def ordB2 : Order := mkOrder "B" 2 "Pending"

def ordC3 : Order := mkOrder "C" 3 "Pending"

/-- Orders A and B with the same timestamp, A ingested first. -/
def ordA5 : Order := mkOrder "A" 5 "Pending"

def ordB5 : Order := mkOrder "B" 5 "Pending"

/-- Capacity 2, then ingest A(1), B(2), C(3) in that order. -/
def capTwoScenario : AppState :=
  handleMessage
    (handleMessage
      (handleMessage { initState with maxOrders := 2 } (Message.orderItem ordA1))
      (Message.orderItem ordB2))
    (Message.orderItem ordC3)

/-- Capacity 1, ingest A then B at the equal timestamp 5. -/
def tieScenario : AppState :=
  handleMessage
    (handleMessage { initState with maxOrders := 1 } (Message.orderItem ordA5))
    (Message.orderItem ordB5)

/-- Page size 1, three ingested orders, page 3 selected, then capacity cut
to 1 through updateMaxOrdersLimit. -/
def pageShrinkScenario : AppState :=
  updateMaxOrdersLimit
    (goToPage
      (handleMessage
        (handleMessage
          (handleMessage (setPageSize initState 1) (Message.orderItem ordA1))
          (Message.orderItem ordB2))
        (Message.orderItem ordC3))
      3)
    (some 1)

/-- Fifty-seven distinct cached orders, newest first. -/
def demoOrders57 : List Order :=
  (List.range 57).map (fun i => mkOrder (toString i) (1000 - i) "Pending")

/-- State holding 57 orders at the default page size 25. -/
def demo57 : AppState :=
  { initState with orders := demoOrders57, ordersArray := demoOrders57 }

/-- A cached order that is already Done, currently selected. -/
def doneOrder : Order := mkOrder "A" 1 "Done"

/-- Connected state whose single selected order has status Done. -/
def selDoneState : AppState :=
  { initState with
    isConnected := true
    orders := [doneOrder]
    ordersArray := [doneOrder]
    selectedOrders := ["A"] }

/-- A cached order with status Pending. -/
def pendingOrder : Order := mkOrder "P1" 1 "Pending"

/-- A cached order with status Processing. -/
def processingOrder : Order := mkOrder "P2" 2 "Processing"

/-- Connected state caching one Pending and one Processing order, with the
Processing one selected. -/
def connTwoState : AppState :=
  { initState with
    isConnected := true
    orders := [pendingOrder, processingOrder]
    ordersArray := [processingOrder, pendingOrder]
    selectedOrders := ["P2"] }

/-- Connection currently up with no pending reconnect callback. -/
def connUp : ConnState :=
  { isConnected := true, statusText := "Connected", pendingReconnects := [], connectCalls := 0 }

/-- A fresh order carried by an order_updated frame. -/
def ordX : Order := mkOrder "X" 1 "Pending"

/-- State caching exactly order A(1), nothing selected. -/
def oneOrderState : AppState :=
  { initState with orders := [ordA1], ordersArray := [ordA1] }

end OrderApp

namespace OrderApp

theorem sortOrders_perm (m : List Order) : (sortOrders m).Perm m :=
  List.perm_insertionSort tsDescLe m

theorem sortOrders_length (m : List Order) : (sortOrders m).length = m.length :=
  (sortOrders_perm m).length_eq

theorem sortOrders_sorted (m : List Order) : (sortOrders m).Pairwise tsDescLe :=
  List.sorted_insertionSort tsDescLe m

theorem any_key_eq (m : List Order) (oid : String) :
    (m.any (fun e => e.order_id == oid)) = true ↔ oid ∈ keys m := by
  simp [List.any_eq_true, keys, List.mem_map]

theorem keys_mapSet (m : List Order) (o : Order) :
    keys (mapSet m o) =
      if o.order_id ∈ keys m then keys m else keys m ++ [o.order_id] := by
  unfold mapSet
  by_cases h : o.order_id ∈ keys m
  · rw [if_pos ((any_key_eq m o.order_id).mpr h), if_pos h]
    unfold keys
    rw [List.map_map]
    apply List.map_congr_left
    intro e _
    simp only [Function.comp]
    split
    · rename_i heq
      exact (beq_iff_eq.mp heq).symm
    · rfl
  · rw [if_neg (fun hc => h ((any_key_eq m o.order_id).mp hc)), if_neg h]
    unfold keys
    rw [List.map_append]
    rfl

theorem keys_mapSet_nodup (m : List Order) (o : Order) (h : (keys m).Nodup) :
    (keys (mapSet m o)).Nodup := by
  rw [keys_mapSet]
  split
  · exact h
  · rename_i hnot
    simp [List.nodup_append, h, hnot]

theorem mem_keys_mapSet_of_mem (m : List Order) (o : Order) (oid : String)
    (h : oid ∈ keys m) : oid ∈ keys (mapSet m o) := by
  rw [keys_mapSet]
  split
  · exact h
  · exact List.mem_append_left _ h

theorem mem_keys_mapSet_cases (m : List Order) (o : Order) (oid : String)
    (h : oid ∈ keys (mapSet m o)) : oid ∈ keys m ∨ oid = o.order_id := by
  rw [keys_mapSet] at h
  revert h
  split
  · exact fun h => Or.inl h
  · intro h
    rcases List.mem_append.mp h with h | h
    · exact Or.inl h
    · exact Or.inr (List.mem_singleton.mp h)

theorem length_mapSet (m : List Order) (o : Order) :
    (mapSet m o).length =
      if o.order_id ∈ keys m then m.length else m.length + 1 := by
  unfold mapSet
  by_cases h : o.order_id ∈ keys m
  · rw [if_pos ((any_key_eq m o.order_id).mpr h), if_pos h, List.length_map]
  · rw [if_neg (fun hc => h ((any_key_eq m o.order_id).mp hc)), if_neg h,
      List.length_append, List.length_singleton]

theorem foldl_mapDelete_eq_filter (os : List Order) (m : List Order) :
    os.foldl (fun acc o => mapDelete acc o.order_id) m
      = m.filter (fun e => os.all (fun o => e.order_id != o.order_id)) := by
  induction os generalizing m with
  | nil => simp
  | cons o os ih =>
    rw [List.foldl_cons, ih]
    unfold mapDelete
    rw [List.filter_filter]
    apply List.filter_congr
    intro e _
    simp [Bool.and_comm]

theorem foldl_setDelete_eq_filter (os : List Order) (sel : List String) :
    os.foldl (fun acc o => setDelete acc o.order_id) sel
      = sel.filter (fun x => os.all (fun o => x != o.order_id)) := by
  induction os generalizing sel with
  | nil => simp
  | cons o os ih =>
    rw [List.foldl_cons, ih]
    unfold setDelete
    rw [List.filter_filter]
    apply List.filter_congr
    intro x _
    simp [Bool.and_comm]

end OrderApp

namespace OrderApp

theorem enforce_view_fields (s : AppState) :
    (enforceMaxOrdersLimit s).maxOrders = s.maxOrders
    ∧ (enforceMaxOrdersLimit s).currentPage = s.currentPage
    ∧ (enforceMaxOrdersLimit s).pageSize = s.pageSize
    ∧ (enforceMaxOrdersLimit s).isConnected = s.isConnected := by
  unfold enforceMaxOrdersLimit
  split <;> exact ⟨rfl, rfl, rfl, rfl⟩

theorem orders_perm_ordersArray (s : AppState) (hWF : WF s) :
    s.orders.Perm s.ordersArray := by
  rw [hWF.1]
  exact (sortOrders_perm s.orders).symm

theorem filter_keep_prefix (t d : List Order) (hNd : (keys (t ++ d)).Nodup) :
    ((t ++ d).filter (fun e => d.all (fun o => e.order_id != o.order_id))) = t := by
  rw [List.filter_append]
  have hd : (d.filter (fun e => d.all (fun o => e.order_id != o.order_id))) = [] := by
    rw [List.filter_eq_nil_iff]
    intro y hy h
    have := (List.all_eq_true.mp h) y hy
    simp at this
  have hdisj : ∀ x ∈ t, ∀ o ∈ d, x.order_id ≠ o.order_id := by
    intro x hx o ho heq
    unfold keys at hNd
    rw [List.map_append, List.nodup_append] at hNd
    exact hNd.2.2 (List.mem_map_of_mem _ hx) (by rw [heq]; exact List.mem_map_of_mem _ ho)
  have ht : (t.filter (fun e => d.all (fun o => e.order_id != o.order_id))) = t := by
    rw [List.filter_eq_self]
    intro x hx
    rw [List.all_eq_true]
    intro o ho
    exact bne_iff_ne.mpr (hdisj x hx o ho)
  rw [hd, ht, List.append_nil]

theorem enforce_orders_perm (s : AppState) (hWF : WF s) :
    (enforceMaxOrdersLimit s).orders.Perm
      (s.ordersArray.take
        (s.ordersArray.length - ((s.ordersArray.length : Int) - s.maxOrders).toNat)) := by
  have hPerm : s.orders.Perm s.ordersArray := orders_perm_ordersArray s hWF
  have hNdArr : (keys s.ordersArray).Nodup := by
    have h2 := hWF.2
    unfold keys at h2 ⊢
    exact ((hPerm.map (fun e : Order => e.order_id)).nodup_iff).mp h2
  unfold enforceMaxOrdersLimit
  split
  · simp only [foldl_mapDelete_eq_filter]
    have hsplit := List.take_append_drop
      (s.ordersArray.length - ((s.ordersArray.length : Int) - s.maxOrders).toNat) s.ordersArray
    have hkey := filter_keep_prefix
      (s.ordersArray.take
        (s.ordersArray.length - ((s.ordersArray.length : Int) - s.maxOrders).toNat))
      (s.ordersArray.drop
        (s.ordersArray.length - ((s.ordersArray.length : Int) - s.maxOrders).toNat))
      (by rw [hsplit]; exact hNdArr)
    rw [hsplit] at hkey
    exact (hPerm.filter _).trans (by rw [hkey])
  · rename_i hle
    have hk : ((s.ordersArray.length : Int) - s.maxOrders).toNat = 0 := by omega
    rw [hk, Nat.sub_zero, List.take_length]
    exact hPerm

theorem enforce_orders_length (s : AppState) (hWF : WF s) :
    (enforceMaxOrdersLimit s).orders.length
      = s.ordersArray.length - ((s.ordersArray.length : Int) - s.maxOrders).toNat := by
  rw [(enforce_orders_perm s hWF).length_eq, List.length_take]
  omega

theorem enforce_WF (s : AppState) (hWF : WF s) : WF (enforceMaxOrdersLimit s) := by
  obtain ⟨hArr, hNd⟩ := hWF
  unfold enforceMaxOrdersLimit
  split
  · refine ⟨rfl, ?_⟩
    simp only [foldl_mapDelete_eq_filter]
    exact hNd.sublist ((List.filter_sublist s.orders).map _)
  · exact ⟨hArr, hNd⟩

theorem enforce_SelInv (s : AppState) (hsel : SelInv s) :
    SelInv (enforceMaxOrdersLimit s) := by
  unfold enforceMaxOrdersLimit
  split
  · intro oid hmem
    simp only [foldl_setDelete_eq_filter, List.mem_filter] at hmem
    obtain ⟨hin, hp⟩ := hmem
    obtain ⟨e, he, heid⟩ := List.mem_map.mp (hsel oid hin)
    simp only [foldl_mapDelete_eq_filter, keys, List.mem_map]
    refine ⟨e, ?_, heid⟩
    rw [List.mem_filter]
    exact ⟨he, by rw [heid]; exact hp⟩
  · exact hsel

end OrderApp

namespace OrderApp

theorem updateOrderInTable_eq_add (s : AppState) (o : Order) :
    updateOrderInTable s o = addOrderToTable s o := rfl

theorem WF_mapSet_state (s : AppState) (o : Order) (hWF : WF s) :
    WF { s with orders := mapSet s.orders o, ordersArray := sortOrders (mapSet s.orders o) } :=
  ⟨rfl, keys_mapSet_nodup _ _ hWF.2⟩

theorem WF_addOrderToTable (s : AppState) (o : Order) (hWF : WF s) :
    WF (addOrderToTable s o) :=
  enforce_WF _ (WF_mapSet_state s o hWF)

theorem addOrderToTable_fields (s : AppState) (o : Order) :
    (addOrderToTable s o).maxOrders = s.maxOrders
    ∧ (addOrderToTable s o).currentPage = s.currentPage
    ∧ (addOrderToTable s o).pageSize = s.pageSize
    ∧ (addOrderToTable s o).isConnected = s.isConnected :=
  enforce_view_fields _

theorem addOrderToTable_length_le (s : AppState) (o : Order) (hWF : WF s)
    (hcap : 0 ≤ s.maxOrders) :
    ((addOrderToTable s o).orders.length : Int) ≤ s.maxOrders := by
  unfold addOrderToTable
  rw [enforce_orders_length _ (WF_mapSet_state s o hWF)]
  dsimp only
  omega

theorem WF_init (cap : Int) : WF { initState with maxOrders := cap } :=
  ⟨rfl, List.nodup_nil⟩

theorem handleMessage_WF (s : AppState) (m : Message) (hWF : WF s) :
    WF (handleMessage s m) := by
  cases m with
  | orderItem o => exact WF_addOrderToTable s o hWF
  | orderUpdated o => rw [handleMessage, updateOrderInTable_eq_add]; exact WF_addOrderToTable s o hWF
  | statusMsg t => exact hWF
  | errorMsg t => exact hWF
  | unknown t => exact hWF

theorem handleMessage_fields (s : AppState) (m : Message) :
    (handleMessage s m).maxOrders = s.maxOrders
    ∧ (handleMessage s m).currentPage = s.currentPage
    ∧ (handleMessage s m).pageSize = s.pageSize
    ∧ (handleMessage s m).isConnected = s.isConnected := by
  cases m with
  | orderItem o => exact addOrderToTable_fields s o
  | orderUpdated o => rw [handleMessage, updateOrderInTable_eq_add]; exact addOrderToTable_fields s o
  | statusMsg t => exact ⟨rfl, rfl, rfl, rfl⟩
  | errorMsg t => exact ⟨rfl, rfl, rfl, rfl⟩
  | unknown t => exact ⟨rfl, rfl, rfl, rfl⟩

theorem foldl_handleMessage_inv (cap : Int) (hcap : 0 ≤ cap) (msgs : List Message) :
    ∀ t : AppState, WF t → t.maxOrders = cap → ((t.orders.length : Int) ≤ cap) →
      WF (msgs.foldl handleMessage t) ∧ (msgs.foldl handleMessage t).maxOrders = cap
        ∧ (((msgs.foldl handleMessage t).orders.length : Int) ≤ cap) := by
  induction msgs with
  | nil => intro t h1 h2 h3; exact ⟨h1, h2, h3⟩
  | cons m ms ih =>
    intro t h1 h2 h3
    rw [List.foldl_cons]
    have hWF2 : WF (handleMessage t m) := handleMessage_WF t m h1
    have hmax2 : (handleMessage t m).maxOrders = cap := (handleMessage_fields t m).1.trans h2
    have hlen2 : (((handleMessage t m).orders.length : Int) ≤ cap) := by
      cases m with
      | orderItem o =>
        have := addOrderToTable_length_le t o h1 (by omega)
        rw [h2] at this
        exact this
      | orderUpdated o =>
        rw [handleMessage, updateOrderInTable_eq_add]
        have := addOrderToTable_length_le t o h1 (by omega)
        rw [h2] at this
        exact this
      | statusMsg s => exact h3
      | errorMsg s => exact h3
      | unknown s => exact h3
    exact ih _ hWF2 hmax2 hlen2

/-- C1: for every sequence of inbound events processed from the fresh client
state with a configured nonnegative capacity (default 500), the number of
orders held in the cache never exceeds the capacity after each event handler
returns; the handler evicts oldest entries down to the capacity whenever an
ingest would exceed it. -/
theorem cache_size_never_exceeds_capacity (cap : Int) (hcap : 0 ≤ cap)
    (msgs : List Message) :
    (((msgs.foldl handleMessage { initState with maxOrders := cap }).orders.length : Int)
      ≤ cap) := by
  refine (foldl_handleMessage_inv cap hcap msgs _ (WF_init cap) rfl ?_).2.2
  simpa using hcap

/-- Witness for C1 at capacity 500 with three concrete ingests. -/
theorem cache_size_never_exceeds_capacity_witness :
    (0 : Int) ≤ 500
    ∧ ((([Message.orderItem ordA1, Message.orderUpdated ordB2,
          Message.orderItem ordC3].foldl handleMessage
            { initState with maxOrders := 500 }).orders.length : Int) ≤ 500) :=
  ⟨by decide,
   cache_size_never_exceeds_capacity 500 (by decide)
     [Message.orderItem ordA1, Message.orderUpdated ordB2, Message.orderItem ordC3]⟩

end OrderApp

namespace OrderApp

theorem sorted_take_drop (arr : List Order) (hs : arr.Pairwise tsDescLe) (j : Nat) :
    ∀ x ∈ arr.take j, ∀ y ∈ arr.drop j, y.timestamp ≤ x.timestamp := by
  rw [← List.take_append_drop j arr] at hs
  exact fun x hx y hy => (List.pairwise_append.mp hs).2.2 x hx y hy

theorem mem_mem_sublist_pair {α : Type} {a b : α} :
    ∀ (l : List α), a ∈ l → b ∈ l → a ≠ b →
      List.Sublist [a, b] l ∨ List.Sublist [b, a] l := by
  intro l
  induction l with
  | nil => simp
  | cons c t ih =>
    intro ha hb hne
    rcases List.mem_cons.mp ha with rfl | ha2
    · have hb2 : b ∈ t := by
        rcases List.mem_cons.mp hb with h | h
        · exact absurd h.symm hne
        · exact h
      exact Or.inl (List.Sublist.cons₂ _ (List.singleton_sublist.mpr hb2))
    · rcases List.mem_cons.mp hb with rfl | hb2
      · exact Or.inr (List.Sublist.cons₂ _ (List.singleton_sublist.mpr ha2))
      · rcases ih ha2 hb2 hne with h | h
        · exact Or.inl (List.Sublist.cons _ h)
        · exact Or.inr (List.Sublist.cons _ h)

theorem sublist_pair_antisymm {α : Type} {a b : α} :
    ∀ {l : List α}, l.Nodup → List.Sublist [a, b] l → List.Sublist [b, a] l → a = b := by
  intro l
  induction l with
  | nil => intro _ h; cases h
  | cons c t ih =>
    intro hnd h1 h2
    cases h1 with
    | cons _ h1a =>
      cases h2 with
      | cons _ h2a => exact ih (List.nodup_cons.mp hnd).2 h1a h2a
      | cons₂ h2a =>
        have hb : b ∈ t := h1a.subset (by simp)
        exact absurd hb (List.nodup_cons.mp hnd).1
    | cons₂ h1a =>
      cases h2 with
      | cons _ h2a =>
        have ha : a ∈ t := h2a.subset (by simp)
        exact absurd ha (List.nodup_cons.mp hnd).1
      | cons₂ h2a => rfl

/-- C2 counterexample: with capacity 1, ingesting A then B at the same
timestamp 5 retains A, the earliest-inserted entry, and evicts the
latest-inserted B, contradicting the claimed tie rule that the
earliest-inserted entry is evicted first. -/
theorem eviction_tie_evicts_latest_inserted :
    tieScenario.orders = [ordA5]
    ∧ tieScenario.orders ≠ [ordB5]
    ∧ ordA5.timestamp = ordB5.timestamp
    ∧ ordA5 ≠ ordB5 := by decide

/-- C2 amended: eviction removes exactly max(0, size - capacity) entries and
always the ones with the oldest creation timestamps; among entries with equal
timestamps the latest-inserted entry is evicted first, equivalently every
retained entry with the same timestamp as an evicted one was inserted
earlier; concretely, with capacity 2 and ingests A(1), B(2), C(3) the cache
retains exactly B and C. -/
theorem eviction_removes_oldest (s : AppState) (hWF : WF s) :
    ((enforceMaxOrdersLimit s).orders.length
        = s.ordersArray.length - ((s.ordersArray.length : Int) - s.maxOrders).toNat)
    ∧ (∀ x ∈ (enforceMaxOrdersLimit s).orders,
        ∀ y ∈ s.ordersArray.drop
          (s.ordersArray.length - ((s.ordersArray.length : Int) - s.maxOrders).toNat),
        y.timestamp ≤ x.timestamp)
    ∧ (∀ x ∈ (enforceMaxOrdersLimit s).orders,
        ∀ y ∈ s.ordersArray.drop
          (s.ordersArray.length - ((s.ordersArray.length : Int) - s.maxOrders).toNat),
        x.timestamp = y.timestamp → List.Sublist [x, y] s.orders)
    ∧ capTwoScenario.orders = [ordB2, ordC3] := by
  have hPerm : s.orders.Perm s.ordersArray := orders_perm_ordersArray s hWF
  have hNdKeys : (keys s.ordersArray).Nodup := by
    have h2 := hWF.2
    unfold keys at h2 ⊢
    exact ((hPerm.map (fun e : Order => e.order_id)).nodup_iff).mp h2
  have hNdArr : s.ordersArray.Nodup := List.Nodup.of_map _ hNdKeys
  have hResPerm := enforce_orders_perm s hWF
  have hSorted : s.ordersArray.Pairwise tsDescLe := by
    rw [hWF.1]
    exact sortOrders_sorted s.orders
  refine ⟨enforce_orders_length s hWF, ?_, ?_, by decide⟩
  · intro x hx y hy
    exact sorted_take_drop s.ordersArray hSorted _ x (hResPerm.mem_iff.mp hx) y hy
  · intro x hx y hy heq
    have hxt : x ∈ s.ordersArray.take
        (s.ordersArray.length - ((s.ordersArray.length : Int) - s.maxOrders).toNat) :=
      hResPerm.mem_iff.mp hx
    have hxm : x ∈ s.orders := hPerm.mem_iff.mpr (List.take_subset _ _ hxt)
    have hym : y ∈ s.orders := hPerm.mem_iff.mpr (List.drop_subset _ _ hy)
    have hne : x ≠ y := by
      intro hxy
      subst hxy
      rw [← List.take_append_drop
        (s.ordersArray.length - ((s.ordersArray.length : Int) - s.maxOrders).toNat)
        s.ordersArray, List.nodup_append] at hNdArr
      exact hNdArr.2.2 hxt hy
    rcases mem_mem_sublist_pair s.orders hxm hym hne with h | h
    · exact h
    · exfalso
      have hyx : List.Sublist [y, x] s.ordersArray := by
        rw [hWF.1]
        unfold sortOrders
        exact List.pair_sublist_insertionSort (show tsDescLe y x from le_of_eq heq) h
      have hxy2 : List.Sublist [x, y] s.ordersArray := by
        have hp := (List.singleton_sublist.mpr hxt).append (List.singleton_sublist.mpr hy)
        rw [List.take_append_drop] at hp
        exact hp
      exact hne (sublist_pair_antisymm hNdArr hxy2 hyx)

/-- Witness for C2's amended statement at the concrete capacity-2 scenario. -/
theorem eviction_removes_oldest_witness :
    WF capTwoScenario ∧ capTwoScenario.orders = [ordB2, ordC3] :=
  ⟨⟨by decide, by decide⟩, (eviction_removes_oldest capTwoScenario ⟨by decide, by decide⟩).2.2.2⟩

end OrderApp

namespace OrderApp

/-- C3 counterexample: toggling an identifier that is not a cache key inserts
it into the Selection Set with no membership check, so right after this
selection operation the Selection Set is not a subset of the cache keys. -/
theorem selection_not_subset_after_toggle :
    (toggleOrderSelection initState "X").selectedOrders = ["X"]
    ∧ keys (toggleOrderSelection initState "X").orders = []
    ∧ ¬ SelInv (toggleOrderSelection initState "X") := by
  refine ⟨by decide, by decide, fun h => ?_⟩
  have := h "X" (by decide)
  simp [toggleOrderSelection, initState, keys] at this

/-- C3 amended: the Selection Set is a subset of the cache keys at every
observable point, provided every toggle targets an identifier present in the
cache at toggle time (which the rendered rows guarantee); ingest, eviction,
capacity change, clearing and paging preserve the invariant unconditionally,
and eviction drops evicted identifiers from the Selection Set in the same
step. -/
theorem selection_subset_preserved (s : AppState) (op : Op) (hsel : SelInv s)
    (htog : ∀ oid, op = Op.toggle oid → oid ∈ keys s.orders) :
    SelInv (applyOp s op) := by
  cases op with
  | inbound m =>
    cases m with
    | orderItem o =>
      show SelInv (addOrderToTable s o)
      unfold addOrderToTable
      apply enforce_SelInv
      intro oid hmem
      exact mem_keys_mapSet_of_mem _ _ _ (hsel oid hmem)
    | orderUpdated o =>
      show SelInv (updateOrderInTable s o)
      rw [updateOrderInTable_eq_add]
      unfold addOrderToTable
      apply enforce_SelInv
      intro oid hmem
      exact mem_keys_mapSet_of_mem _ _ _ (hsel oid hmem)
    | statusMsg t => exact hsel
    | errorMsg t => exact hsel
    | unknown t => exact hsel
  | toggle oid =>
    show SelInv (toggleOrderSelection s oid)
    unfold toggleOrderSelection
    split
    · intro x hx
      have hx2 : x ∈ s.selectedOrders := by
        unfold setDelete at hx
        exact (List.mem_filter.mp hx).1
      exact hsel x hx2
    · intro x hx
      rcases List.mem_append.mp hx with h | h
      · exact hsel x h
      · rw [List.mem_singleton.mp h]
        exact htog oid rfl
  | deselectAll =>
    intro x hx
    exact absurd hx (List.not_mem_nil x)
  | setCapacity v =>
    show SelInv (updateMaxOrdersLimit s v)
    unfold updateMaxOrdersLimit
    apply enforce_SelInv
    exact hsel
  | page p =>
    show SelInv (goToPage s p)
    unfold goToPage
    split
    · exact hsel
    · exact hsel
  | choosePageSize n => exact hsel

/-- Witness for C3's amended statement: toggling the cached identifier A. -/
theorem selection_subset_preserved_witness :
    SelInv oneOrderState ∧ SelInv (applyOp oneOrderState (Op.toggle "A")) := by
  have h1 : SelInv oneOrderState := fun x hx => absurd hx (List.not_mem_nil x)
  refine ⟨h1, selection_subset_preserved oneOrderState (Op.toggle "A") h1 ?_⟩
  intro oid h
  injection h with h2
  subst h2
  decide

end OrderApp

namespace OrderApp

theorem addOrderToTable_size_mono (s : AppState) (o : Order) (hWF : WF s)
    (hsz : (s.orders.length : Int) ≤ s.maxOrders) :
    s.orders.length ≤ (addOrderToTable s o).orders.length := by
  unfold addOrderToTable
  rw [enforce_orders_length _ (WF_mapSet_state s o hWF)]
  dsimp only
  rw [sortOrders_length]
  have hN := length_mapSet s.orders o
  split at hN <;> omega

theorem handleMessage_size_mono (s : AppState) (m : Message) (hWF : WF s)
    (hsz : (s.orders.length : Int) ≤ s.maxOrders) :
    s.orders.length ≤ (handleMessage s m).orders.length := by
  cases m with
  | orderItem o => exact addOrderToTable_size_mono s o hWF hsz
  | orderUpdated o =>
    rw [handleMessage, updateOrderInTable_eq_add]
    exact addOrderToTable_size_mono s o hWF hsz
  | statusMsg t => exact Nat.le_refl _
  | errorMsg t => exact Nat.le_refl _
  | unknown t => exact Nat.le_refl _

/-- C4 counterexample: with page size 1, three cached orders and current page
3, cutting the capacity to 1 through updateMaxOrdersLimit shrinks the cache
to one order and one total page but leaves the current page at 3, outside
the interval from 1 to max(1, ceil(N / pageSize)). -/
theorem capacity_change_breaks_page_clamp :
    pageShrinkScenario.currentPage = 3
    ∧ getTotalPages pageShrinkScenario = 1
    ∧ ¬ (pageShrinkScenario.currentPage ≤ max 1 (getTotalPages pageShrinkScenario)) := by
  decide

/-- C4 amended: goToPage, page-size changes and ingest each leave the current
page inside the interval from 1 to max(1, ceil(N / pageSize)) whenever it was
inside before (goToPage rejects out-of-range requests, a page-size change
resets to page 1, and an ingest never shrinks the page count); a capacity
change through updateMaxOrdersLimit, however, does not re-clamp the current
page and can leave it above the total page count. -/
theorem page_stays_in_range (s : AppState) (p n : Nat) (m : Message)
    (hWF : WF s) (hsz : (s.orders.length : Int) ≤ s.maxOrders)
    (hinv : PageInv s) :
    PageInv (goToPage s p) ∧ PageInv (setPageSize s n) ∧ PageInv (handleMessage s m) := by
  obtain ⟨hinv1, hinv2⟩ := hinv
  refine ⟨?_, ?_, ?_⟩
  · unfold goToPage
    split
    · exact ⟨hinv1, hinv2⟩
    · rename_i h
      push_neg at h
      have e1 : getTotalPages { s with currentPage := p } = getTotalPages s := rfl
      refine ⟨?_, ?_⟩
      · exact h.1
      · show p ≤ max 1 (getTotalPages { s with currentPage := p })
        rw [e1]
        exact le_trans h.2 (Nat.le_max_right 1 _)
  · exact ⟨Nat.le_refl 1, Nat.le_max_left 1 _⟩
  · have hfields := handleMessage_fields s m
    have hWF2 := handleMessage_WF s m hWF
    have harrOld : s.ordersArray.length = s.orders.length := by
      rw [hWF.1, sortOrders_length]
    have harrNew : (handleMessage s m).ordersArray.length
        = (handleMessage s m).orders.length := by
      rw [hWF2.1, sortOrders_length]
    have hlen : s.ordersArray.length ≤ (handleMessage s m).ordersArray.length := by
      rw [harrOld, harrNew]
      exact handleMessage_size_mono s m hWF hsz
    have htp : getTotalPages s ≤ getTotalPages (handleMessage s m) := by
      unfold getTotalPages
      rw [hfields.2.2.1]
      exact Nat.div_le_div_right (by omega)
    refine ⟨?_, ?_⟩
    · rw [hfields.2.1]
      exact hinv1
    · rw [hfields.2.1]
      exact le_trans hinv2 (max_le_max (Nat.le_refl 1) htp)

/-- Witness for C4's amended statement on the one-order state. -/
theorem page_stays_in_range_witness :
    WF oneOrderState
    ∧ ((oneOrderState.orders.length : Int) ≤ oneOrderState.maxOrders)
    ∧ PageInv oneOrderState
    ∧ PageInv (goToPage oneOrderState 1)
    ∧ PageInv (setPageSize oneOrderState 50)
    ∧ PageInv (handleMessage oneOrderState (Message.orderItem ordB2)) := by
  have h := page_stays_in_range oneOrderState 1 50 (Message.orderItem ordB2)
    ⟨by decide, by decide⟩ (by decide) ⟨by decide, by decide⟩
  exact ⟨⟨by decide, by decide⟩, by decide, ⟨by decide, by decide⟩, h.1, h.2.1, h.2.2⟩

end OrderApp

namespace OrderApp

theorem chunk_flatMap (arr : List Order) (ps : Nat) (nPages : Nat) :
    (List.range nPages).flatMap (fun i => (arr.drop (i * ps)).take ps)
      = arr.take (nPages * ps) := by
  induction nPages with
  | zero => simp
  | succ n ih =>
    rw [List.range_succ, List.flatMap_append, ih]
    simp only [List.flatMap_cons, List.flatMap_nil, List.append_nil]
    rw [← List.take_add, Nat.succ_mul]

theorem le_ceil_mul (len ps : Nat) (hps : 0 < ps) :
    len ≤ ((len + ps - 1) / ps) * ps := by
  cases len with
  | zero => exact Nat.zero_le _
  | succ l =>
    have h1 : l + 1 + ps - 1 = l + ps := by omega
    rw [h1, Nat.add_div_right l hps, Nat.add_mul, Nat.one_mul]
    have h2 := Nat.div_add_mod l ps
    have h3 := Nat.mod_lt l hps
    rw [Nat.mul_comm]
    omega

/-- C5: every page slice has length at most pageSize, and the concatenation
of the slices of pages 1 through getTotalPages is exactly the cache's full
descending ordering, whether or not pageSize divides the cache size; in the
concrete 57-order state with page size 25, getTotalPages is 3 and page 3
holds exactly 7 items. -/
theorem pagination_partition :
    (∀ (s : AppState) (p : Nat), (pageItems s p).length ≤ s.pageSize)
    ∧ (∀ s : AppState, 0 < s.pageSize →
        (List.range (getTotalPages s)).flatMap (fun i => pageItems s (i + 1))
          = s.ordersArray)
    ∧ getTotalPages demo57 = 3
    ∧ (pageItems demo57 3).length = 7 := by
  refine ⟨?_, ?_, by decide, by decide⟩
  · intro s p
    unfold pageItems
    rw [List.length_take]
    omega
  · intro s hps
    unfold pageItems
    simp only [Nat.add_sub_cancel]
    rw [chunk_flatMap s.ordersArray s.pageSize (getTotalPages s)]
    apply List.take_of_length_le
    show s.ordersArray.length ≤ getTotalPages s * s.pageSize
    unfold getTotalPages
    exact le_ceil_mul _ _ hps

/-- Witness for C5 at the concrete 57-order state with page size 25. -/
theorem pagination_partition_witness :
    0 < demo57.pageSize
    ∧ ((List.range (getTotalPages demo57)).flatMap (fun i => pageItems demo57 (i + 1))
        = demo57.ordersArray) :=
  ⟨by decide, pagination_partition.2.1 demo57 (by decide)⟩

end OrderApp

namespace OrderApp

/-- C6: closeOrder emits a close_order command only when the target order is
cached with status Processing (and the emitted command names that order);
whenever the order is absent from the cache or its status is not Processing,
no command is emitted and an error status is reported. -/
theorem closeOrder_requires_processing (s : AppState) (oid : String) (c : Bool) :
    ((closeOrder s oid c).1 ≠ [] →
      s.isConnected = true
      ∧ ∃ o, mapGet s.orders oid = some o ∧ o.status = "Processing"
        ∧ (closeOrder s oid c).1 = [Command.closeOrderCmd oid])
    ∧ ((mapGet s.orders oid = none
        ∨ ∃ o, mapGet s.orders oid = some o ∧ o.status ≠ "Processing") →
      (closeOrder s oid c).1 = []
      ∧ ∃ t, StatusLine.mk t "error" ∈ (closeOrder s oid c).2) := by
  by_cases hconn : s.isConnected = false
  · rw [closeOrder, if_pos hconn]
    exact ⟨fun h => absurd rfl h,
      fun _ => ⟨rfl, ⟨"Not connected to server", List.mem_singleton.mpr rfl⟩⟩⟩
  · have hconn2 : s.isConnected = true := by
      revert hconn
      cases s.isConnected <;> simp
    rw [closeOrder, if_neg hconn]
    cases hm : mapGet s.orders oid with
    | none =>
      dsimp only
      exact ⟨fun h => absurd rfl h,
        fun _ => ⟨rfl, ⟨"Order not found", List.mem_singleton.mpr rfl⟩⟩⟩
    | some o =>
      dsimp only
      by_cases hst : o.status = "Processing"
      · rw [if_neg (show ¬(o.status ≠ "Processing") from fun hne => hne hst)]
        constructor
        · intro h
          refine ⟨hconn2, o, rfl, hst, ?_⟩
          cases c with
          | false =>
            rw [if_neg (show ¬(false = true) by simp)] at h
            exact absurd rfl h
          | true =>
            rw [if_pos rfl, performCloseOrder, if_neg hconn]
        · rintro (h | ⟨o2, ho2, hs2⟩)
          · cases h
          · exact absurd ((Option.some.inj ho2) ▸ hst) hs2
      · rw [if_pos hst]
        exact ⟨fun h => absurd rfl h,
          fun _ => ⟨rfl, ⟨"Only processing orders can be closed", List.mem_singleton.mpr rfl⟩⟩⟩

/-- Witness for C6: closing the cached Pending order P1 is rejected with an
error and no command. -/
theorem closeOrder_requires_processing_witness :
    (mapGet connTwoState.orders "P1" = some pendingOrder
      ∧ pendingOrder.status ≠ "Processing")
    ∧ ((closeOrder connTwoState "P1" true).1 = []
      ∧ ∃ t, StatusLine.mk t "error" ∈ (closeOrder connTwoState "P1" true).2) :=
  ⟨⟨by decide, by decide⟩,
   (closeOrder_requires_processing connTwoState "P1" true).2
     (Or.inr ⟨pendingOrder, by decide, by decide⟩)⟩

end OrderApp

namespace OrderApp

theorem flatMap_fst_pairs (l : List String) (f : String → Command)
    (g : String → List StatusLine) :
    ((l.map (fun oid => (([f oid] : List Command), g oid))).flatMap Prod.fst)
      = l.map f := by
  induction l with
  | nil => rfl
  | cons a t ih =>
    simp only [List.map_cons, List.flatMap_cons, ih]
    rfl

/-- C7 counterexample: in a connected state whose only selected order has
status Done, processSelectedOrders still emits a process_order command for
it, although the member is not Pending at command-issue time. -/
theorem processSelected_ignores_status :
    (processSelectedOrders selDoneState).1 = [Command.processOrderCmd "A"]
    ∧ (∀ o ∈ selDoneState.orders, o.status ≠ "Pending")
    ∧ mapGet selDoneState.orders "A" = some doneOrder
    ∧ doneOrder.status = "Done" := by decide

/-- C7 amended: when connected with a nonempty selection, closeSelectedOrders
(once confirmed) issues exactly one close_order per selected member whose
status is Processing at command-issue time, in selection order;
processSelectedOrders, however, issues one process_order per selected member
unconditionally, with no Pending-status filter. -/
theorem selected_order_commands (s : AppState) (hconn : s.isConnected = true)
    (hne : s.selectedOrders ≠ []) :
    (processSelectedOrders s).1 = s.selectedOrders.map Command.processOrderCmd
    ∧ (selectedProcessingOrders s ≠ [] →
        (closeSelectedOrders s true).1
          = (selectedProcessingOrders s).map Command.closeOrderCmd) := by
  have hconnF : ¬ (s.isConnected = false) := by
    rw [hconn]
    simp
  constructor
  · rw [processSelectedOrders, if_neg hconnF,
      if_neg (show ¬(s.selectedOrders.length = 0) from by
        simpa [List.length_eq_zero] using hne)]
    dsimp only
    have hpo : ∀ oid, processOrder s oid = ([Command.processOrderCmd oid], []) := by
      intro oid
      rw [processOrder, if_neg hconnF]
    simp only [hpo]
    exact flatMap_fst_pairs _ _ _
  · intro hsel
    rw [closeSelectedOrders, if_neg hconnF,
      if_neg (show ¬(s.selectedOrders.length = 0) from by
        simpa [List.length_eq_zero] using hne)]
    dsimp only
    rw [if_neg (show ¬((selectedProcessingOrders s).length = 0) from by
        simpa [List.length_eq_zero] using hsel)]
    rw [if_pos rfl, performCloseSelectedOrders]
    dsimp only
    have hpc : ∀ oid, performCloseOrder s oid
        = ([Command.closeOrderCmd oid], [⟨"Closing order " ++ oid, "success"⟩]) := by
      intro oid
      rw [performCloseOrder, if_neg hconnF]
    simp only [hpc]
    exact flatMap_fst_pairs _ _ _

/-- Witness for C7's amended statement: one selected Processing order. -/
theorem selected_order_commands_witness :
    connTwoState.isConnected = true
    ∧ connTwoState.selectedOrders ≠ []
    ∧ (processSelectedOrders connTwoState).1
        = connTwoState.selectedOrders.map Command.processOrderCmd
    ∧ (closeSelectedOrders connTwoState true).1
        = (selectedProcessingOrders connTwoState).map Command.closeOrderCmd := by
  have h := selected_order_commands connTwoState (by decide) (by decide)
  exact ⟨by decide, by decide, h.1, h.2 (by decide)⟩

end OrderApp

namespace OrderApp

/-- C8 counterexample: supplying -5 to updateMaxOrdersLimit stores -5 as the
capacity instead of the claimed default 500, because parseInt(v) || 500 only
defaults on NaN and 0 and a negative number is truthy. -/
theorem negative_capacity_not_defaulted :
    (updateMaxOrdersLimit initState (some (-5))).maxOrders = -5
    ∧ (updateMaxOrdersLimit initState (some (-5))).maxOrders ≠ 500 := by decide

/-- C8 amended: updateMaxOrdersLimit stores the parsed capacity and
immediately re-runs eviction, so the cache size drops to at most the new
bound whenever that bound is nonnegative; the stored value defaults to 500
exactly when the input parses to NaN (non-numeric) or to 0, while any other
integer, negative ones included, is stored as supplied. -/
theorem updateMaxOrders_behavior (s : AppState) (v : Option Int) (hWF : WF s) :
    (updateMaxOrdersLimit s none).maxOrders = 500
    ∧ (updateMaxOrdersLimit s (some 0)).maxOrders = 500
    ∧ (∀ k : Int, k ≠ 0 → (updateMaxOrdersLimit s (some k)).maxOrders = k)
    ∧ (0 ≤ parsedCapacity v →
        ((updateMaxOrdersLimit s v).orders.length : Int) ≤ parsedCapacity v) := by
  refine ⟨?_, ?_, ?_, ?_⟩
  · rw [updateMaxOrdersLimit, (enforce_view_fields _).1]
    rfl
  · rw [updateMaxOrdersLimit, (enforce_view_fields _).1]
    rfl
  · intro k hk
    rw [updateMaxOrdersLimit, (enforce_view_fields _).1]
    show parsedCapacity (some k) = k
    rw [parsedCapacity]
    exact if_neg hk
  · intro hpos
    rw [updateMaxOrdersLimit,
      enforce_orders_length _ (show WF { s with maxOrders := parsedCapacity v } from
        ⟨hWF.1, hWF.2⟩)]
    dsimp only
    omega

/-- Witness for C8's amended statement at capacity input 7. -/
theorem updateMaxOrders_behavior_witness :
    WF initState
    ∧ (0 : Int) ≤ parsedCapacity (some 7)
    ∧ (updateMaxOrdersLimit initState none).maxOrders = 500
    ∧ (updateMaxOrdersLimit initState (some 0)).maxOrders = 500
    ∧ (updateMaxOrdersLimit initState (some 7)).maxOrders = 7
    ∧ (((updateMaxOrdersLimit initState (some 7)).orders.length : Int)
        ≤ parsedCapacity (some 7)) := by
  have h := updateMaxOrders_behavior initState (some 7) ⟨by decide, by decide⟩
  exact ⟨⟨by decide, by decide⟩, by decide, h.1, h.2.1,
    h.2.2.1 7 (by decide), h.2.2.2 (by decide)⟩

/-- C9 counterexample: a transport error while Connected only changes the
displayed status text; it neither marks the connection disconnected nor
schedules a reconnect callback, so no automatic reconnection follows an
error alone. -/
theorem error_schedules_no_reconnect :
    (wsOnError connUp).isConnected = true
    ∧ (wsOnError connUp).pendingReconnects = []
    ∧ (wsOnError connUp).connectCalls = 0
    ∧ (wsOnError connUp).statusText = "Error" := by decide

/-- C9 amended: every transport close event enters Disconnected and schedules
exactly one reconnect callback 3000ms later; when a scheduled callback fires
with the connection still down it performs exactly one automatic reconnection
attempt and is consumed, and the attempt is suppressed exactly when a
Connected state holds at fire time; a transport error alone only updates the
displayed status text. -/
theorem reconnect_after_close (c : ConnState) (now t : Nat) :
    ((wsOnClose c now).isConnected = false
      ∧ (wsOnClose c now).pendingReconnects = c.pendingReconnects ++ [now + 3000])
    ∧ (t ∈ c.pendingReconnects → c.isConnected = false →
        (fireReconnectTimer c t).connectCalls = c.connectCalls + 1
        ∧ (fireReconnectTimer c t).pendingReconnects = c.pendingReconnects.erase t)
    ∧ (c.isConnected = true →
        (fireReconnectTimer c t).connectCalls = c.connectCalls)
    ∧ (wsOnError c).isConnected = c.isConnected
    ∧ (wsOnError c).pendingReconnects = c.pendingReconnects := by
  refine ⟨⟨rfl, rfl⟩, ?_, ?_, rfl, rfl⟩
  · intro ht hdown
    rw [fireReconnectTimer, if_pos (by simpa using ht)]
    dsimp only
    rw [if_neg (show ¬(c.isConnected = true) from by rw [hdown]; simp)]
    exact ⟨rfl, rfl⟩
  · intro hup
    rw [fireReconnectTimer]
    split
    · dsimp only
      rw [if_pos hup]
    · rfl

/-- Witness for C9's amended statement: close at instant 0, fire at 3000. -/
theorem reconnect_after_close_witness :
    (3000 ∈ (wsOnClose connUp 0).pendingReconnects)
    ∧ ((wsOnClose connUp 0).isConnected = false)
    ∧ ((fireReconnectTimer (wsOnClose connUp 0) 3000).connectCalls
        = (wsOnClose connUp 0).connectCalls + 1)
    ∧ ((fireReconnectTimer (wsOnClose connUp 0) 3000).pendingReconnects
        = (wsOnClose connUp 0).pendingReconnects.erase 3000) := by
  have h := (reconnect_after_close (wsOnClose connUp 0) 0 3000).2.1 (by decide) (by decide)
  exact ⟨by decide, by decide, h.1, h.2⟩

end OrderApp

namespace OrderApp

theorem find?_cons_if {α : Type} (p : α → Bool) (a : α) (l : List α) :
    (a :: l).find? p = if p a then some a else l.find? p := by
  rw [List.find?_cons]
  split <;> rename_i h
  · rw [if_pos h]
  · rw [if_neg (by simp_all)]

theorem find?_map_replace (m : List Order) (o : Order) :
    ((m.map (fun e => if e.order_id == o.order_id then o else e)).find?
      (fun e => e.order_id == o.order_id))
      = if m.any (fun e => e.order_id == o.order_id) then some o else none := by
  induction m with
  | nil => rfl
  | cons e t ih =>
    rw [List.map_cons, List.any_cons]
    by_cases he : (e.order_id == o.order_id) = true
    · rw [if_pos he, find?_cons_if]
      have hpred : (o.order_id == o.order_id) = true := by simp
      rw [if_pos hpred, he, Bool.true_or, if_pos rfl]
    · rw [Bool.not_eq_true] at he
      have he2 : ¬((e.order_id == o.order_id) = true) := by simp [he]
      rw [if_neg he2, find?_cons_if, if_neg he2, ih, he, Bool.false_or]

theorem find?_append_self (m : List Order) (o : Order) (hnot : o.order_id ∉ keys m) :
    ((m ++ [o]).find? (fun e => e.order_id == o.order_id)) = some o := by
  induction m with
  | nil =>
    rw [List.nil_append, find?_cons_if, if_pos (by simp)]
  | cons e t ih =>
    rw [keys, List.map_cons] at hnot
    have h1 : o.order_id ≠ e.order_id := fun h => hnot (h ▸ List.mem_cons_self _ _)
    have h2 : o.order_id ∉ keys t := fun h => hnot (List.mem_cons_of_mem _ h)
    have hne : (e.order_id == o.order_id) = false :=
      beq_eq_false_iff_ne.mpr (fun h => h1 h.symm)
    rw [List.cons_append, find?_cons_if, if_neg (by simp [hne])]
    exact ih h2

theorem mapGet_mapSet_self (m : List Order) (o : Order) :
    mapGet (mapSet m o) o.order_id = some o := by
  rw [mapGet, mapSet]
  split
  · rename_i hany
    rw [find?_map_replace, if_pos hany]
  · rename_i hany
    apply find?_append_self
    intro hk
    exact hany ((any_key_eq _ _).mpr hk)

theorem keys_enforce_subset (s : AppState) :
    ∀ x ∈ keys (enforceMaxOrdersLimit s).orders, x ∈ keys s.orders := by
  rw [enforceMaxOrdersLimit]
  split
  · intro x hx
    simp only [foldl_mapDelete_eq_filter] at hx
    rw [keys] at hx
    obtain ⟨e, he, heq⟩ := List.mem_map.mp hx
    rw [keys]
    exact heq ▸ List.mem_map_of_mem _ (List.mem_of_mem_filter he)
  · exact fun x hx => hx

/-- C10 counterexample: from the fresh state, an order_updated frame carrying
the unknown identifier X creates the record in the cache, so record creation
is not restricted to the first order_item frame. -/
theorem order_updated_creates_record :
    initState.orders = []
    ∧ (handleMessage initState (Message.orderUpdated ordX)).orders = [ordX] := by
  decide

/-- C10 amended: a record is created on the first frame, order_item or
order_updated, carrying its identifier, since the two handlers share the
same insert-or-replace body; a frame carrying an identifier already in the
cache replaces that record in place at its existing key; status, error and
unknown frames never touch the state, so there is no delete command, and a
cached record disappears only through capacity-bound eviction, whose guard
requires the post-insert size to exceed the capacity. -/
theorem order_lifecycle (s : AppState) (m : Message) (oid : String) :
    (oid ∉ keys s.orders → oid ∈ keys (handleMessage s m).orders →
      ∃ o, (m = Message.orderItem o ∨ m = Message.orderUpdated o) ∧ o.order_id = oid)
    ∧ (∀ o : Order, o.order_id ∈ keys s.orders →
        keys (mapSet s.orders o) = keys s.orders
        ∧ mapGet (mapSet s.orders o) o.order_id = some o)
    ∧ (∀ t : String, handleMessage s (Message.statusMsg t) = s
        ∧ handleMessage s (Message.errorMsg t) = s
        ∧ handleMessage s (Message.unknown t) = s)
    ∧ (oid ∈ keys s.orders → oid ∉ keys (handleMessage s m).orders →
      ∃ o, (m = Message.orderItem o ∨ m = Message.orderUpdated o)
        ∧ s.maxOrders < ((mapSet s.orders o).length : Int)) := by
  refine ⟨?_, ?_, fun t => ⟨rfl, rfl, rfl⟩, ?_⟩
  · intro hnot hin
    cases m with
    | orderItem o =>
      refine ⟨o, Or.inl rfl, ?_⟩
      have h1 := keys_enforce_subset _ oid hin
      rcases mem_keys_mapSet_cases _ _ _ h1 with h | h
      · exact absurd h hnot
      · exact h.symm
    | orderUpdated o =>
      rw [handleMessage, updateOrderInTable_eq_add] at hin
      refine ⟨o, Or.inr rfl, ?_⟩
      have h1 := keys_enforce_subset _ oid hin
      rcases mem_keys_mapSet_cases _ _ _ h1 with h | h
      · exact absurd h hnot
      · exact h.symm
    | statusMsg t => exact absurd hin hnot
    | errorMsg t => exact absurd hin hnot
    | unknown t => exact absurd hin hnot
  · intro o hk
    refine ⟨?_, mapGet_mapSet_self _ _⟩
    rw [keys_mapSet, if_pos hk]
  · intro hin hout
    cases m with
    | orderItem o =>
      refine ⟨o, Or.inl rfl, ?_⟩
      by_contra hguard
      apply hout
      show oid ∈ keys (addOrderToTable s o).orders
      rw [addOrderToTable, enforceMaxOrdersLimit,
        if_neg (show ¬ _ from by dsimp only; rw [sortOrders_length]; omega)]
      exact mem_keys_mapSet_of_mem _ _ _ hin
    | orderUpdated o =>
      rw [handleMessage, updateOrderInTable_eq_add] at hout
      refine ⟨o, Or.inr rfl, ?_⟩
      by_contra hguard
      apply hout
      show oid ∈ keys (addOrderToTable s o).orders
      rw [addOrderToTable, enforceMaxOrdersLimit,
        if_neg (show ¬ _ from by dsimp only; rw [sortOrders_length]; omega)]
      exact mem_keys_mapSet_of_mem _ _ _ hin
    | statusMsg t => exact absurd hin hout
    | errorMsg t => exact absurd hin hout
    | unknown t => exact absurd hin hout

/-- Witness for C10's amended statement: ingesting the fresh identifier B
into the one-order state creates the record for B. -/
theorem order_lifecycle_witness :
    ("B" ∉ keys oneOrderState.orders)
    ∧ ("B" ∈ keys (handleMessage oneOrderState (Message.orderItem ordB2)).orders)
    ∧ (∃ o, (Message.orderItem ordB2 = Message.orderItem o
          ∨ Message.orderItem ordB2 = Message.orderUpdated o)
        ∧ o.order_id = "B") :=
  ⟨by decide, by decide,
   (order_lifecycle oneOrderState (Message.orderItem ordB2) "B").1 (by decide) (by decide)⟩

end OrderApp
